import Mathlib

/-!
Verification of the summary.py data pipeline (UM-Arboretum/arcgis).

The pipeline has three stages: a climate summarizer (`daily_summary`,
`summarize_folder`), a DBH corrector (`compute_dbh_df`,
`process_dbh_folder`) and a metadata loader.  This file embeds the
data model and the operations of the first two stages and proves the
frozen claims about them.

Conventions of the embedding:
* a CSV table that has already been read from disk is a `List` of rows
  (reading a file is treated as a primitive, per the design document);
* `pandas` missing values (NaN) are `Option.none`; numeric cells are
  rationals (`ℚ`), so arithmetic is exact;
* timestamps are modelled as minutes since 0000-03-01 of the proleptic
  Gregorian calendar (all parsed years are ≥ 1, so `Nat` suffices);
* fallible operations return `Except PyError`, mirroring the Python
  exceptions (`ValueError` from `strptime`/`to_datetime`, `KeyError`
  from label slicing).
-/

/-- Python exceptions that the modelled pipeline can raise.
`valueError` covers timestamp parse failures (the spec's ParseError),
`keyError` covers `.loc` label-slicing failures on a non-monotonic
index. -/
inductive PyError where
  | valueError
  | keyError
deriving DecidableEq, Repr

/-- A parsed naive timestamp `YYYY.MM.DD HH:MM` (no timezone stored). -/
structure TS where
  y : Nat
  m : Nat
  d : Nat
  hh : Nat
  mm : Nat
deriving DecidableEq, Repr

/-- Numeric value of a digit character. -/
def digitVal (c : Char) : Nat := c.toNat - 48

/-- Candidate parses of `%Y` (exactly four digits, as in CPython's
`_strptime` regex `\d\d\d\d`). -/
def yearCands : List Char → List (Nat × List Char)
  | a :: b :: c :: d :: rest =>
    if a.isDigit ∧ b.isDigit ∧ c.isDigit ∧ d.isDigit then
      [(1000 * digitVal a + 100 * digitVal b + 10 * digitVal c + digitVal d, rest)]
    else []
  | _ => []

/-- Candidate parses of a literal character in the format string. -/
def litCands (ch : Char) : List Char → List (List Char)
  | c :: rest => if c = ch then [rest] else []
  | [] => []

/-- Candidate parses of `%m`, in the order of the CPython `_strptime`
regex alternatives `1[0-2]|0[1-9]|[1-9]` (so one- and two-digit months
are both accepted, two-digit first). -/
def monthCands : List Char → List (Nat × List Char)
  | c1 :: c2 :: rest =>
    (if c1 = '1' ∧ '0' ≤ c2 ∧ c2 ≤ '2' then [(10 + digitVal c2, rest)] else []) ++
    (if c1 = '0' ∧ '1' ≤ c2 ∧ c2 ≤ '9' then [(digitVal c2, rest)] else []) ++
    (if '1' ≤ c1 ∧ c1 ≤ '9' then [(digitVal c1, c2 :: rest)] else [])
  | [c1] => if '1' ≤ c1 ∧ c1 ≤ '9' then [(digitVal c1, [])] else []
  | [] => []

/-- Candidate parses of `%d`, regex `3[01]|[1-2]\d|0[1-9]|[1-9]`. -/
def dayCands : List Char → List (Nat × List Char)
  | c1 :: c2 :: rest =>
    (if c1 = '3' ∧ '0' ≤ c2 ∧ c2 ≤ '1' then [(30 + digitVal c2, rest)] else []) ++
    (if '1' ≤ c1 ∧ c1 ≤ '2' ∧ c2.isDigit then [(10 * digitVal c1 + digitVal c2, rest)] else []) ++
    (if c1 = '0' ∧ '1' ≤ c2 ∧ c2 ≤ '9' then [(digitVal c2, rest)] else []) ++
    (if '1' ≤ c1 ∧ c1 ≤ '9' then [(digitVal c1, c2 :: rest)] else [])
  | [c1] => if '1' ≤ c1 ∧ c1 ≤ '9' then [(digitVal c1, [])] else []
  | [] => []

/-- Candidate parses of `%H`, regex `2[0-3]|[0-1]\d|\d`. -/
def hourCands : List Char → List (Nat × List Char)
  | c1 :: c2 :: rest =>
    (if c1 = '2' ∧ '0' ≤ c2 ∧ c2 ≤ '3' then [(20 + digitVal c2, rest)] else []) ++
    (if ('0' = c1 ∨ c1 = '1') ∧ c2.isDigit then [(10 * digitVal c1 + digitVal c2, rest)] else []) ++
    (if c1.isDigit then [(digitVal c1, c2 :: rest)] else [])
  | [c1] => if c1.isDigit then [(digitVal c1, [])] else []
  | [] => []

/-- Candidate parses of `%M`, regex `[0-5]\d|\d`. -/
def minuteCands : List Char → List (Nat × List Char)
  | c1 :: c2 :: rest =>
    (if '0' ≤ c1 ∧ c1 ≤ '5' ∧ c2.isDigit then [(10 * digitVal c1 + digitVal c2, rest)] else []) ++
    (if c1.isDigit then [(digitVal c1, c2 :: rest)] else [])
  | [c1] => if c1.isDigit then [(digitVal c1, [])] else []
  | [] => []

/-- Candidate parses of the whitespace in the format; `_strptime`
compiles a whitespace run in the format string to `\s+`, greedy, so the
longest run is tried first. -/
def wsCands (cs : List Char) : List (List Char) :=
  let n := (cs.takeWhile Char.isWhitespace).length
  (List.range n).map (fun i => cs.drop (n - i))

/-- All matches of the compiled regex for `"%Y.%m.%d %H:%M"`, in
backtracking priority order, each with the unconsumed remainder. -/
def tsCands (cs : List Char) : List (TS × List Char) :=
  (yearCands cs).flatMap fun py =>
  (litCands '.' py.2).flatMap fun r1 =>
  (monthCands r1).flatMap fun pm =>
  (litCands '.' pm.2).flatMap fun r2 =>
  (dayCands r2).flatMap fun pd =>
  (wsCands pd.2).flatMap fun r3 =>
  (hourCands r3).flatMap fun ph =>
  (litCands ':' ph.2).flatMap fun r4 =>
  (minuteCands r4).map fun pmin =>
  (⟨py.1, pm.1, pd.1, ph.1, pmin.1⟩, pmin.2)

/-- Leap year of the proleptic Gregorian calendar. -/
def isLeap (y : Nat) : Bool := y % 4 = 0 ∧ (y % 100 ≠ 0 ∨ y % 400 = 0)

/-- Number of days in a month. -/
def daysInMonth (y m : Nat) : Nat :=
  if m = 2 then (if isLeap y then 29 else 28)
  else if m = 4 ∨ m = 6 ∨ m = 9 ∨ m = 11 then 30
  else 31

/-- Model of `datetime.strptime(s, "%Y.%m.%d %H:%M")`: take the first
match of the compiled regex (in backtracking order), require the whole
string to be consumed, then apply the `datetime` constructor's calendar
validation (year ≥ 1 and day in range for the month; month, hour and
minute ranges are already enforced by the regex). On failure Python
raises `ValueError`; here the result is `none`. -/
def parseTimestamp (s : String) : Option TS :=
  match tsCands s.data with
  | [] => none
  | (t, rest) :: _ =>
    if rest = [] ∧ 1 ≤ t.y ∧ t.d ≤ daysInMonth t.y t.m then some t else none

/-- Days from 0000-03-01 of the proleptic Gregorian calendar (valid for
dates on or after that day; all parsed dates have year ≥ 1). Standard
era-based civil-calendar arithmetic. -/
def daysFromCivil (y m d : Nat) : Nat :=
  let y' := if m ≤ 2 then y - 1 else y
  let m' := if m ≤ 2 then m + 9 else m - 3
  let era := y' / 400
  let yoe := y' % 400
  let doy := (153 * m' + 2) / 5 + d - 1
  let doe := yoe * 365 + yoe / 4 - yoe / 100 + doy
  era * 146097 + doe

/-- Inverse of `daysFromCivil`: (year, month, day) of a day count. -/
def civilFromDays (z : Nat) : Nat × Nat × Nat :=
  let era := z / 146097
  let doe := z % 146097
  let yoe := (doe - doe / 1460 + doe / 36524 - doe / 146096) / 365
  let doy := doe - (365 * yoe + yoe / 4 - yoe / 100)
  let mp := (5 * doy + 2) / 153
  let d := doy - (153 * mp + 2) / 5 + 1
  let m := if mp < 10 then mp + 3 else mp - 9
  (yoe + era * 400 + (if m ≤ 2 then 1 else 0), m, d)

/-- Minutes since the epoch 0000-03-01 00:00 of a naive timestamp. -/
def tsMinutes (t : TS) : Nat :=
  daysFromCivil t.y t.m t.d * 1440 + t.hh * 60 + t.mm

/-- Naive timestamp of a minute count. -/
def minutesToTS (n : Nat) : TS :=
  let c := civilFromDays (n / 1440)
  ⟨c.1, c.2.1, c.2.2, n % 1440 / 60, n % 60⟩

/-- Day number of the first Sunday on or after day `z`
(0000-03-01 is a Wednesday; `146097 % 7 = 0`). -/
def firstSundayOnOrAfter (z : Nat) : Nat := z + (7 - (z + 3) % 7) % 7

/-- Minute (since epoch, in UTC) at which daylight saving time starts
in year `y`: 2:00 EST on the second Sunday of March = 07:00 UTC. These
are the America/New_York rules of the tz database in force since 2007
(the rules pytz applies to every timestamp the claims exercise). -/
def dstStartMin (y : Nat) : Nat :=
  (firstSundayOnOrAfter (daysFromCivil y 3 1) + 7) * 1440 + 7 * 60

/-- Minute (UTC) at which daylight saving time ends in year `y`:
2:00 EDT on the first Sunday of November = 06:00 UTC. -/
def dstEndMin (y : Nat) : Nat :=
  firstSundayOnOrAfter (daysFromCivil y 11 1) * 1440 + 6 * 60

/-- Whether daylight saving time is in force in America/New_York at a
given UTC minute. -/
def isNyDst (n : Nat) : Bool :=
  let y := (civilFromDays (n / 1440)).1
  dstStartMin y ≤ n ∧ n < dstEndMin y

/-- Minutes that America/New_York lags behind UTC at a UTC instant:
240 during daylight saving (EDT, UTC-4), 300 otherwise (EST, UTC-5). -/
def nyOffsetMin (n : Nat) : Nat := if isNyDst n then 240 else 300

/-- Local Eastern minute count of a UTC timestamp. -/
def easternMinutes (t : TS) : Nat :=
  tsMinutes t - nyOffsetMin (tsMinutes t)

/-- Model of `convert_to_eastern` (summary.py lines 31-34): parse the
string with `strptime("%Y.%m.%d %H:%M")`, interpret it as UTC, convert
to America/New_York, and drop the timezone (the returned `TS` carries
no zone). A parse failure raises `ValueError`. -/
def convert_to_eastern (s : String) : Except PyError TS :=
  match parseTimestamp s with
  | none => Except.error PyError.valueError
  | some t => Except.ok (minutesToTS (easternMinutes t))

/-- Digits folded to a number. -/
def natOfDigits (cs : List Char) : Nat :=
  cs.foldl (fun a c => a * 10 + digitVal c) 0

/-- Exact rational addition, written through `mkRat` so that it
evaluates inside the kernel (`Rat.add` itself is irreducible); equal to
`a + b` by `ratAdd_eq_add` below. -/
def ratAdd (a b : ℚ) : ℚ := mkRat (a.num * b.den + b.num * a.den) (a.den * b.den)

/-- Exact rational subtraction through `mkRat`; equal to `a - b`. -/
def ratSub (a b : ℚ) : ℚ := mkRat (a.num * b.den - b.num * a.den) (a.den * b.den)

/-- Exact division by ten through `mkRat`; equal to `a / 10`. -/
def ratDivTen (a : ℚ) : ℚ := mkRat a.num (a.den * 10)

/-- Unsigned decimal numeral, optionally with a fractional part
(`"8890"`, `"12.5"`, `".5"`, `"5."`). -/
def parseDecCore (cs : List Char) : Option ℚ :=
  let ip := cs.takeWhile Char.isDigit
  let rest := cs.dropWhile Char.isDigit
  match rest with
  | [] => if ip = [] then none else some (mkRat (natOfDigits ip) 1)
  | '.' :: rest2 =>
    let fp := rest2.takeWhile Char.isDigit
    let rest3 := rest2.dropWhile Char.isDigit
    if rest3 = [] ∧ (ip ≠ [] ∨ fp ≠ []) then
      some (mkRat (natOfDigits ip * 10 ^ fp.length + natOfDigits fp) (10 ^ fp.length))
    else none
  | _ => none

/-- Model of the numeric coercion applied to the `Size` column
(`pd.to_numeric(..., errors="coerce")` after `read_csv`): surrounding
whitespace is ignored, an optional sign and a decimal numeral are
accepted, and any other token becomes a missing value (NaN → `none`),
never an error. -/
def toNumeric (s : String) : Option ℚ :=
  let cs := ((s.data.dropWhile Char.isWhitespace).reverse.dropWhile Char.isWhitespace).reverse
  match cs with
  | '-' :: rest => (parseDecCore rest).map (fun q => mkRat (-q.num) q.den)
  | '+' :: rest => parseDecCore rest
  | _ => parseDecCore cs

/-- Null-safe minimum of a column: missing values are dropped, and an
all-missing column has a missing minimum. This is the semantics of the
pandas `"min"` aggregation (skipna). -/
def aggMin (vals : List (Option ℚ)) : Option ℚ :=
  match vals.filterMap id with
  | [] => none
  | x :: xs => some (xs.foldl min x)

/-- Null-safe maximum, the pandas `"max"` aggregation. -/
def aggMax (vals : List (Option ℚ)) : Option ℚ :=
  match vals.filterMap id with
  | [] => none
  | x :: xs => some (xs.foldl max x)

/-- Raw climate record as read from an extracted CSV: a textual
timestamp and five measurement channels, each possibly missing. -/
structure ClimateRaw where
  timestamp : String
  t1 : Option ℚ
  t2 : Option ℚ
  t3 : Option ℚ
  sm : Option ℚ
  sh : Option ℚ
deriving DecidableEq, Repr

/-- Climate record after `pd.to_datetime(..., format="%Y.%m.%d %H:%M")`:
the parsed timestamp in minutes (no timezone conversion on this path). -/
structure ClimateRow where
  tmin : Nat
  raw : ClimateRaw
deriving DecidableEq, Repr

/-- Climate parse-and-sort stage (summary.py lines 40-41): parse every
timestamp with the fixed format (`ValueError` aborts the file) and sort
by timestamp ascending. -/
def climateSorted (df : List ClimateRaw) : Except PyError (List ClimateRow) := do
  let parsed ← df.mapM (fun r =>
    match parseTimestamp r.timestamp with
    | none => Except.error PyError.valueError
    | some t => Except.ok (⟨tsMinutes t, r⟩ : ClimateRow))
  pure (List.insertionSort (fun a b => a.tmin ≤ b.tmin) parsed)

/-- Calendar date of a row, as a day count (`Timestamp.dt.date`). -/
def rowDate (r : ClimateRow) : Nat := r.tmin / 1440

/-- The distinct dates of the sorted records; `groupby("Date")` emits
group keys in ascending date order. -/
def datesOf (rows : List ClimateRow) : List Nat :=
  (rows.map rowDate).dedup

/-- One row of a per-station daily climate summary. -/
structure DailyClimate where
  date : Nat
  t1_min : Option ℚ
  t1_max : Option ℚ
  t2_min : Option ℚ
  t2_max : Option ℚ
  t3_min : Option ℚ
  t3_max : Option ℚ
  soil_min : Option ℚ
  soil_max : Option ℚ
  shake_max : Option ℚ
  rows : Nat
deriving DecidableEq, Repr

/-- The records of one `groupby("Date")` group. -/
def climateGroup (rows : List ClimateRow) (d : Nat) : List ClimateRow :=
  rows.filter (fun r => rowDate r = d)

/-- Aggregation stage of `daily_summary` (lines 45-56): group the
sorted records by date and aggregate each channel null-safely. `Rows`
is the pandas `"count"` of the `Timestamp` column, i.e. the number of
non-missing timestamps in the group; every timestamp survived parsing,
so this is the group's size. -/
def climateDaily (rows : List ClimateRow) : List DailyClimate :=
  (datesOf rows).map (fun d =>
    { date := d
      t1_min := aggMin ((climateGroup rows d).map (fun r => r.raw.t1))
      t1_max := aggMax ((climateGroup rows d).map (fun r => r.raw.t1))
      t2_min := aggMin ((climateGroup rows d).map (fun r => r.raw.t2))
      t2_max := aggMax ((climateGroup rows d).map (fun r => r.raw.t2))
      t3_min := aggMin ((climateGroup rows d).map (fun r => r.raw.t3))
      t3_max := aggMax ((climateGroup rows d).map (fun r => r.raw.t3))
      soil_min := aggMin ((climateGroup rows d).map (fun r => r.raw.sm))
      soil_max := aggMax ((climateGroup rows d).map (fun r => r.raw.sm))
      shake_max := aggMax ((climateGroup rows d).map (fun r => r.raw.sh))
      rows := (climateGroup rows d).length })

/-- Model of `daily_summary` (lines 39-59) up to the final write: parse
and sort, then aggregate per date. -/
def daily_summary (df : List ClimateRaw) : Except PyError (List DailyClimate) := do
  let rows ← climateSorted df
  pure (climateDaily rows)

/-- Lowercase a string, as Python `str.lower()` on ASCII names. -/
def strToLower (s : String) : String := ⟨s.data.map Char.toLower⟩

/-- Python `str.endswith`. -/
def strEndsWith (s t : String) : Bool :=
  s.data.reverse.take t.data.length == t.data.reverse

/-- Model of `pathlib.Path(file).stem`: the name with its final suffix
removed; a suffix exists only when the last dot is at an interior
position (so `".bashrc"` and `"nodot"` are their own stems). -/
def pathStem (name : String) : String :=
  let cs := name.data
  match ((cs.enum.filter (fun p => p.2 = '.')).map (fun p => p.1)).getLast? with
  | some i => if 0 < i ∧ i + 1 < cs.length then ⟨cs.take i⟩ else name
  | none => name

/-- Station / sensor id: the stem's leading token before the first
underscore (`Path(file).stem.split("_")[0]`). -/
def stationId (name : String) : String :=
  ⟨(pathStem name).data.takeWhile (fun c => c ≠ '_')⟩

/-- Write (or overwrite) one file in the modelled output folder. The
folder is an association list from file name to content with distinct
names (a filesystem directory); `to_csv` to an existing path replaces
the content. -/
def writeFile {α : Type} : List (String × α) → String → α → List (String × α)
  | [], name, content => [(name, content)]
  | p :: rest, name, content =>
    if p.1 = name then (name, content) :: rest
    else p :: writeFile rest name content

/-- Content of one file of the modelled output folder. -/
def lookupFile {α : Type} (fs : List (String × α)) (name : String) : Option α :=
  (fs.find? (fun p => p.1 = name)).map (fun p => p.2)

/-- One step of `summarize_folder`: a file whose name ends in `".csv"`
(case-sensitive, line 67) has its daily summary written to
`{station_id}_daily.csv` in the destination folder; other files are
skipped. -/
def summarizeStep (fs : List (String × List DailyClimate))
    (file : String × List ClimateRaw) :
    Except PyError (List (String × List DailyClimate)) :=
  if strEndsWith file.1 ".csv" then do
    let out ← daily_summary file.2
    pure (writeFile fs (stationId file.1 ++ "_daily.csv") out)
  else pure fs

/-- Model of `summarize_folder` (lines 64-76): walk the folder's files
in order, summarizing each CSV into the destination folder. The result
is the destination folder's final contents. -/
def summarize_folder (files : List (String × List ClimateRaw)) :
    Except PyError (List (String × List DailyClimate)) :=
  files.foldlM summarizeStep []

/-- Raw DBH record: the ten fixed columns assigned on lines 90-93, all
still textual (the file is read with `header=None`; the pre-skip header
row keeps every column at object dtype). -/
structure DbhRaw where
  sensor : String
  timestamp : String
  x3 : String
  t1 : String
  t2 : String
  t3 : String
  size : String
  humidity : String
  battery : String
  x : String
deriving DecidableEq, Repr

/-- Shorthand for a DBH record whose irrelevant columns are empty. -/
def mkDbh (ts sz : String) : DbhRaw := ⟨"", ts, "", "", "", "", sz, "", "", ""⟩

/-- DBH record after parsing: `label` is the pandas index label given
by `reset_index` before sorting (the row's position in the file, header
excluded), `tmin` the converted local timestamp, `size` the coerced
numeric size. -/
structure DbhRow where
  label : Nat
  tmin : Nat
  size : Option ℚ
  raw : DbhRaw
deriving DecidableEq, Repr

/-- Parse one indexed DBH row: convert its timestamp with
`convert_to_eastern` (a `ValueError` aborts the file) and coerce
`Size` to numeric; the index label travels along. -/
def dbhParseStep (p : Nat × DbhRaw) : Except PyError DbhRow :=
  match parseTimestamp p.2.timestamp with
  | none => Except.error PyError.valueError
  | some t => Except.ok ⟨p.1, easternMinutes t, toNumeric p.2.size, p.2⟩

/-- Parsing stage of `compute_dbh_df` (lines 87-99): skip the first raw
row, reset the index to `0..n-1`, and parse every data row. -/
def dbhParse (rows : List DbhRaw) : Except PyError (List DbhRow) :=
  (rows.drop 1).enum.mapM dbhParseStep

/-- The sort of line 96: by converted timestamp ascending. The index
labels travel with the rows; `sort_values` does not reset them. -/
def dbhSort (rows : List DbhRow) : List DbhRow :=
  List.insertionSort (fun a b => a.tmin ≤ b.tmin) rows

/-- Position of an index label in the sorted frame. -/
def labelPos (rows : List DbhRow) (lab : Nat) : Option Nat :=
  rows.findIdx? (fun r => r.label = lab)

/-- Whether the index is monotonically increasing. -/
def monotoneLabels : List DbhRow → Bool
  | a :: b :: rest => a.label ≤ b.label && monotoneLabels (b :: rest)
  | _ => true

/-- Whether consecutive rows have strictly increasing converted
timestamps, i.e. the file is already in (unambiguous) timestamp
order. -/
def strictlyIncreasing : List DbhRow → Bool
  | a :: b :: rest => a.tmin < b.tmin && strictlyIncreasing (b :: rest)
  | _ => true

/-- Add 8890 to the `Size` of every row at position ≥ `p`; missing
sizes stay missing (NaN + 8890 is NaN). -/
def addFromPos (rows : List DbhRow) (p : Nat) : List DbhRow :=
  rows.enum.map (fun q =>
    if p ≤ q.1 then { q.2 with size := q.2.size.map (fun v => ratAdd v (mkRat 8890 1)) } else q.2)

/-- Model of `df.loc[lab:, "Size"] += 8890` on a frame with a unique
integer index: if the label is present, the slice starts at its
position; if it is absent, a monotonic index locates the bound by
binary search (`searchsorted`), while a non-monotonic index raises
`KeyError` (pandas: both bounds of a label slice must be present unless
the index is sorted). -/
def locAddFrom (rows : List DbhRow) (lab : Nat) : Except PyError (List DbhRow) :=
  match labelPos rows lab with
  | some p => Except.ok (addFromPos rows p)
  | none =>
    if monotoneLabels rows then
      Except.ok (addFromPos rows ((rows.filter (fun r => r.label < lab)).length))
    else Except.error PyError.keyError

/-- Rollover step of `compute_dbh_df` (lines 101-106): collect the
index labels of the rows whose `Size` equals exactly 8890, in sorted
row order; if any exist, take the last and add 8890 to the `Size` of
every row of the label slice starting one past it. -/
def dbhRollover (sorted : List DbhRow) : Except PyError (List DbhRow) :=
  match ((sorted.filter (fun r => r.size = some 8890)).map (fun r => r.label)).getLast? with
  | none => Except.ok sorted
  | some lastLab => locAddFrom sorted (lastLab + 1)

/-- Model of `compute_dbh_df` (lines 81-108): parse, sort, correct the
rollover. -/
def compute_dbh_df (rows : List DbhRaw) : Except PyError (List DbhRow) := do
  let parsed ← dbhParse rows
  dbhRollover (dbhSort parsed)

/-- One row of the combined daily DBH summary. -/
structure DailyDbh where
  sensor_id : String
  date : Nat
  min_size : Option ℚ
  max_size : Option ℚ
  growth_mm : Option ℚ
  growth_cm : Option ℚ
deriving DecidableEq, Repr

/-- NaN-propagating binary operation on possibly-missing values. -/
def omap2 (f : ℚ → ℚ → ℚ) : Option ℚ → Option ℚ → Option ℚ
  | some a, some b => some (f a b)
  | _, _ => none

/-- Code-point lexicographic order on character lists (Python string
comparison). -/
def charListLt : List Char → List Char → Bool
  | _, [] => false
  | [], _ :: _ => true
  | a :: as, b :: bs => a < b || (a = b && charListLt as bs)

/-- Non-strict lexicographic order on (sensor id, date) group keys,
matching how pandas sorts group keys. -/
def dbhKeyLe (a b : String × Nat) : Bool :=
  charListLt a.1.data b.1.data || (a.1 = b.1 && a.2 ≤ b.2)

/-- The sizes of one (sensor id, date) group of the combined frame. -/
def dbhGroupSizes (combined : List (String × DbhRow)) (sid : String) (d : Nat) :
    List (Option ℚ) :=
  (combined.filter (fun p => p.1 = sid ∧ p.2.tmin / 1440 = d)).map (fun p => p.2.size)

/-- The distinct (Sensor_ID, date) group keys of the combined frame,
in ascending order as pandas `groupby` emits them. -/
def dbhKeys (combined : List (String × DbhRow)) : List (String × Nat) :=
  List.insertionSort (fun a b => dbhKeyLe a b = true)
    ((combined.map (fun p => (p.1, p.2.tmin / 1440))).dedup)

/-- Aggregation stage of `process_dbh_folder` (lines 134-140): group
the combined corrected rows by (Sensor_ID, date of the local
timestamp), aggregate `Size` null-safely, and derive the growth
columns (`Growth_mm = Max_Size - Min_Size`, `Growth_cm =
Growth_mm / 10`, both missing when the aggregates are). -/
def dbhDaily (combined : List (String × DbhRow)) : List DailyDbh :=
  (dbhKeys combined).map (fun k =>
    { sensor_id := k.1, date := k.2
      min_size := aggMin (dbhGroupSizes combined k.1 k.2)
      max_size := aggMax (dbhGroupSizes combined k.1 k.2)
      growth_mm := omap2 ratSub (aggMax (dbhGroupSizes combined k.1 k.2))
        (aggMin (dbhGroupSizes combined k.1 k.2))
      growth_cm := (omap2 ratSub (aggMax (dbhGroupSizes combined k.1 k.2))
        (aggMin (dbhGroupSizes combined k.1 k.2))).map ratDivTen })

/-- Process one DBH file: run `compute_dbh_df` and tag every resulting
row with the filename-derived sensor id (lines 123-126). -/
def dbhFileStep (f : String × List DbhRaw) :
    Except PyError (List (String × DbhRow)) := do
  let df ← compute_dbh_df f.2
  pure (df.map (fun r => (stationId f.1, r)))

/-- Model of `process_dbh_folder` (lines 113-147): run `dbhFileStep` on
every file whose lowercased name ends in `".csv"`, concatenate
everything, and aggregate; with no input files the stage logs and
returns `None`. -/
def process_dbh_folder (files : List (String × List DbhRaw)) :
    Except PyError (Option (List DailyDbh)) := do
  let dfs ← (files.filter (fun f => strEndsWith (strToLower f.1) ".csv")).mapM dbhFileStep
  if dfs.isEmpty then
    pure none
  else
    pure (some (dbhDaily dfs.flatten))

/-- Model of the `__main__` block's data stages, in order: climate
summaries first, then the DBH pipeline. An exception in either stage
propagates and aborts the run (the metadata join never runs). -/
def run_all (climateFiles : List (String × List ClimateRaw))
    (dbhFiles : List (String × List DbhRaw)) :
    Except PyError (List (String × List DailyClimate) × Option (List DailyDbh)) := do
  let s ← summarize_folder climateFiles
  let d ← process_dbh_folder dbhFiles
  pure (s, d)

/-- Rollover correction as the specification words it: after sorting by
converted timestamp, if some row's `Size` is exactly 8890, add 8890 to
the `Size` of every row strictly after the last such occurrence (in
sorted order) and leave every row at or before it unmodified. -/
def spec_rollover (rows : List DbhRow) : List DbhRow :=
  match ((rows.enum.filter (fun p => p.2.size = some 8890)).map (fun p => p.1)).getLast? with
  | none => rows
  | some i => rows.enum.map (fun p =>
      if i < p.1 then { p.2 with size := p.2.size.map (fun v => ratAdd v (mkRat 8890 1)) } else p.2)

deriving instance DecidableEq for Except

/-- What the specification demands of a null-safe minimum aggregate:
it is missing exactly when every value of the column is missing, and
when present it is one of the present values and a lower bound of all
of them (so missing values are excluded, never coerced to zero). -/
def nullSafeMin (vals : List (Option ℚ)) (agg : Option ℚ) : Prop :=
  (agg = none ↔ ∀ v ∈ vals, v = none) ∧
  ∀ q, agg = some q → some q ∈ vals ∧ ∀ r, some r ∈ vals → q ≤ r

/-- Null-safe maximum aggregate, dually. -/
def nullSafeMax (vals : List (Option ℚ)) (agg : Option ℚ) : Prop :=
  (agg = none ↔ ∀ v ∈ vals, v = none) ∧
  ∀ q, agg = some q → some q ∈ vals ∧ ∀ r, some r ∈ vals → r ≤ q

/-- Date (day count) of a raw climate record's timestamp, if it
parses. -/
def rawDate (r : ClimateRaw) : Option Nat :=
  (parseTimestamp r.timestamp).map (fun t => tsMinutes t / 1440)

/-- The climate input file (among those whose name ends in `".csv"`)
with a given station id that `summarize_folder` processes last. -/
def lastStation (files : List (String × List ClimateRaw)) (s : String) :
    Option (String × List ClimateRaw) :=
  (files.filter (fun f => strEndsWith f.1 ".csv" ∧ stationId f.1 = s)).getLast?

/-- DBH input whose data rows are already in converted-timestamp order
and whose `Size` column is the specification's rollover scenario
`[100, 500, 8890, 50, 300]`; the first row is the skipped header. -/
def c1GoodFile : List DbhRaw :=
  [mkDbh "" "",
   mkDbh "2023.07.04 01:00" "100",
   mkDbh "2023.07.04 02:00" "500",
   mkDbh "2023.07.04 03:00" "8890",
   mkDbh "2023.07.04 04:00" "50",
   mkDbh "2023.07.04 05:00" "300"]

/-- DBH input whose data rows are NOT in timestamp order: the file
order is 02:00 (Size 8890), 01:00 (Size 50), 03:00 (Size 300). After
sorting, the frame's index labels are [1, 0, 2], so the label slice
`df.loc[1:]` starts at the sorted position of label 1 - the first row -
not at the row after the rollover. -/
def c1BadFile : List DbhRaw :=
  [mkDbh "" "",
   mkDbh "2023.07.04 02:00" "8890",
   mkDbh "2023.07.04 01:00" "50",
   mkDbh "2023.07.04 03:00" "300"]

/-- Explicit value of `dbhParse c1GoodFile` (labels in file order,
local timestamps one hour apart, sizes coerced). -/
def c1GoodParsed : List DbhRow :=
  [⟨0, 1064174220, some 100, mkDbh "2023.07.04 01:00" "100"⟩,
   ⟨1, 1064174280, some 500, mkDbh "2023.07.04 02:00" "500"⟩,
   ⟨2, 1064174340, some 8890, mkDbh "2023.07.04 03:00" "8890"⟩,
   ⟨3, 1064174400, some 50, mkDbh "2023.07.04 04:00" "50"⟩,
   ⟨4, 1064174460, some 300, mkDbh "2023.07.04 05:00" "300"⟩]

/-- Climate rows used by the concrete witnesses below: the parsed,
sorted form of a three-record, two-day station file with several
missing channels. -/
def wClimateRows : List ClimateRow :=
  [⟨1064174940, ⟨"2023.07.04 09:00", some 7, none, some 2, none, none⟩⟩,
   ⟨1064175000, ⟨"2023.07.04 10:00", some 1, none, some 3, none, some 5⟩⟩,
   ⟨1064176320, ⟨"2023.07.05 08:00", none, none, none, none, none⟩⟩]

/-- The raw climate file behind `wClimateRows`, in unsorted order. -/
def wClimateFile : List ClimateRaw :=
  [⟨"2023.07.04 10:00", some 1, none, some 3, none, some 5⟩,
   ⟨"2023.07.04 09:00", some 7, none, some 2, none, none⟩,
   ⟨"2023.07.05 08:00", none, none, none, none, none⟩]

/-- First row of `climateDaily wClimateRows`. -/
def wDaily1 : DailyClimate :=
  ⟨739010, some 1, some 7, none, none, some 2, some 3, none, none, some 5, 2⟩

/-- Second row of `climateDaily wClimateRows` (an all-missing day). -/
def wDaily2 : DailyClimate :=
  ⟨739011, none, none, none, none, none, none, none, none, none, 1⟩

/-- Output of `daily_summary wClimateFile`. -/
def wClimateOut : List DailyClimate := [wDaily1, wDaily2]

/-- A one-sensor one-day combined DBH frame. -/
def wCombined : List (String × DbhRow) :=
  [("S1", ⟨0, 1064174220, some 100, mkDbh "2023.07.04 01:00" "100"⟩),
   ("S1", ⟨1, 1064174280, some 8890, mkDbh "2023.07.04 02:00" "8890"⟩)]

/-- The single daily row of `dbhDaily wCombined`. -/
def wDbhRow : DailyDbh := ⟨"S1", 739009, some 100, some 8890, some 8790, some 879⟩

/-- DBH file whose second data row has a non-numeric `Size` token. -/
def wNaFile : List DbhRaw :=
  [mkDbh "" "", mkDbh "2023.07.04 01:00" "8890", mkDbh "2023.07.04 02:00" "NA"]

/-- Output of `compute_dbh_df wNaFile`: the missing size survives the
rollover correction as missing. -/
def wNaOut : List DbhRow :=
  [⟨0, 1064174220, some 8890, mkDbh "2023.07.04 01:00" "8890"⟩,
   ⟨1, 1064174280, none, mkDbh "2023.07.04 02:00" "NA"⟩]

/-- Climate folder with two files of station "AB" and one non-CSV
file. -/
def wFolder : List (String × List ClimateRaw) :=
  [("AB_1.csv", [⟨"2023.07.04 10:00", some 1, none, none, none, none⟩]),
   ("AB_2.csv", [⟨"2023.07.05 11:00", some 9, none, none, none, none⟩]),
   ("CD_1.txt", [⟨"2023.07.04 10:00", some 2, none, none, none, none⟩])]

/-- Final destination-folder contents for `wFolder`: one file per
station id, holding the summary of the last-processed "AB" file. -/
def wFolderOut : List (String × List DailyClimate) :=
  [("AB_daily.csv", [⟨739011, some 9, some 9, none, none, none, none, none, none, none, 1⟩])]

theorem except_bind_ok {ε α β : Type} {x : Except ε α} {f : α → Except ε β} {b : β}
    (h : (x >>= f) = Except.ok b) : ∃ a, x = Except.ok a ∧ f a = Except.ok b := by
  cases x with
  | error e => exact absurd h (by simp [Bind.bind, Except.bind])
  | ok a => exact ⟨a, rfl, h⟩

theorem except_bind_err {ε α β : Type} {x : Except ε α} {f : α → Except ε β} {e : ε}
    (h : x = Except.error e) : (x >>= f) = Except.error e := by
  subst h; rfl

theorem mapM_ok_forall2 {ε α β : Type} {f : α → Except ε β} :
    ∀ {l : List α} {out : List β}, l.mapM f = Except.ok out →
      List.Forall₂ (fun x y => f x = Except.ok y) l out := by
  intro l
  induction l with
  | nil =>
    intro out h
    rw [← List.mapM'_eq_mapM] at h
    simp only [List.mapM'] at h
    cases h
    exact .nil
  | cons a t ih =>
    intro out h
    rw [← List.mapM'_eq_mapM] at h
    simp only [List.mapM'] at h
    obtain ⟨y, hy, h2⟩ := except_bind_ok h
    obtain ⟨ys, hys, h3⟩ := except_bind_ok h2
    have hout : y :: ys = out := by
      simpa [Pure.pure, Except.pure] using h3
    subst hout
    rw [List.mapM'_eq_mapM] at hys
    exact .cons hy (ih hys)

theorem mapM_error_of_mem {ε α β : Type} {f : α → Except ε β} {l : List α} {x : α}
    (hx : x ∈ l) {e : ε} (hf : f x = Except.error e) :
    ∃ e', l.mapM f = Except.error e' := by
  induction l with
  | nil => cases hx
  | cons a t ih =>
    rw [← List.mapM'_eq_mapM]
    simp only [List.mapM']
    rcases List.mem_cons.mp hx with rfl | hxt
    · exact ⟨e, by rw [hf]; rfl⟩
    · cases ha : f a with
      | error e2 => exact ⟨e2, rfl⟩
      | ok y =>
        obtain ⟨e', he'⟩ := ih hxt
        rw [← List.mapM'_eq_mapM] at he'
        refine ⟨e', ?_⟩
        show (Except.ok y >>= fun y => t.mapM' f >>= fun ys => pure (y :: ys)) = _
        rw [show (Except.ok y >>= fun y => t.mapM' f >>= fun ys => pure (y :: ys))
            = (t.mapM' f >>= fun ys => pure (y :: ys)) from rfl]
        exact except_bind_err he'

theorem forall2_map_eq {α β γ : Type} {R : α → β → Prop} {l₁ : List α} {l₂ : List β}
    (h : List.Forall₂ R l₁ l₂) {f : α → γ} {g : β → γ}
    (hfg : ∀ x y, R x y → g y = f x) : l₂.map g = l₁.map f := by
  induction h with
  | nil => rfl
  | cons hr _ ih => simp only [List.map_cons, ih, hfg _ _ hr]

theorem forall2_countP_eq {α β : Type} {R : α → β → Prop} {l₁ : List α} {l₂ : List β}
    (h : List.Forall₂ R l₁ l₂) {p : α → Bool} {q : β → Bool}
    (hpq : ∀ x y, R x y → q y = p x) : l₂.countP q = l₁.countP p := by
  induction h with
  | nil => rfl
  | cons hr _ ih => simp only [List.countP_cons, ih, hpq _ _ hr]

theorem forall2_mem_right {α β : Type} {R : α → β → Prop} {l₁ : List α} {l₂ : List β}
    (h : List.Forall₂ R l₁ l₂) {y : β} (hy : y ∈ l₂) : ∃ x ∈ l₁, R x y := by
  induction h with
  | nil => cases hy
  | cons hr _ ih =>
    rcases List.mem_cons.mp hy with rfl | hyt
    · exact ⟨_, List.mem_cons_self _ _, hr⟩
    · obtain ⟨x, hx, hR⟩ := ih hyt
      exact ⟨x, List.mem_cons_of_mem _ hx, hR⟩

theorem forall2_mem_left {α β : Type} {R : α → β → Prop} {l₁ : List α} {l₂ : List β}
    (h : List.Forall₂ R l₁ l₂) {x : α} (hx : x ∈ l₁) : ∃ y ∈ l₂, R x y := by
  induction h with
  | nil => cases hx
  | cons hr _ ih =>
    rcases List.mem_cons.mp hx with rfl | hxt
    · exact ⟨_, List.mem_cons_self _ _, hr⟩
    · obtain ⟨y, hy, hR⟩ := ih hxt
      exact ⟨y, List.mem_cons_of_mem _ hy, hR⟩

theorem foldl_min_mem (x : ℚ) (xs : List ℚ) : xs.foldl min x = x ∨ xs.foldl min x ∈ xs := by
  induction xs generalizing x with
  | nil => exact Or.inl rfl
  | cons a t ih =>
    rw [List.foldl_cons]
    rcases ih (min x a) with h | h
    · rcases min_choice x a with h' | h'
      · exact Or.inl (h.trans h')
      · refine Or.inr ?_
        rw [h, h']
        exact List.mem_cons_self a t
    · exact Or.inr (List.mem_cons_of_mem _ h)

theorem foldl_min_le (x : ℚ) (xs : List ℚ) :
    xs.foldl min x ≤ x ∧ ∀ y ∈ xs, xs.foldl min x ≤ y := by
  induction xs generalizing x with
  | nil => exact ⟨le_refl x, by intro y hy; cases hy⟩
  | cons a t ih =>
    obtain ⟨h1, h2⟩ := ih (min x a)
    rw [List.foldl_cons]
    refine ⟨le_trans h1 (min_le_left x a), ?_⟩
    intro y hy
    rcases List.mem_cons.mp hy with rfl | hyt
    · exact le_trans h1 (min_le_right x y)
    · exact h2 y hyt

theorem foldl_max_mem (x : ℚ) (xs : List ℚ) : xs.foldl max x = x ∨ xs.foldl max x ∈ xs := by
  induction xs generalizing x with
  | nil => exact Or.inl rfl
  | cons a t ih =>
    rw [List.foldl_cons]
    rcases ih (max x a) with h | h
    · rcases max_choice x a with h' | h'
      · exact Or.inl (h.trans h')
      · refine Or.inr ?_
        rw [h, h']
        exact List.mem_cons_self a t
    · exact Or.inr (List.mem_cons_of_mem _ h)

theorem foldl_max_le (x : ℚ) (xs : List ℚ) :
    x ≤ xs.foldl max x ∧ ∀ y ∈ xs, y ≤ xs.foldl max x := by
  induction xs generalizing x with
  | nil => exact ⟨le_refl x, by intro y hy; cases hy⟩
  | cons a t ih =>
    obtain ⟨h1, h2⟩ := ih (max x a)
    rw [List.foldl_cons]
    refine ⟨le_trans (le_max_left x a) h1, ?_⟩
    intro y hy
    rcases List.mem_cons.mp hy with rfl | hyt
    · exact le_trans (le_max_right x y) h1
    · exact h2 y hyt

theorem aggMin_nullSafe (vals : List (Option ℚ)) : nullSafeMin vals (aggMin vals) := by
  unfold aggMin nullSafeMin
  cases hv : vals.filterMap id with
  | nil =>
    refine ⟨⟨fun _ => ?_, fun _ => rfl⟩, fun q hq => by cases hq⟩
    intro v hvv
    have := List.filterMap_eq_nil_iff.mp hv v hvv
    simpa using this
  | cons x xs =>
    constructor
    · constructor
      · intro h; cases h
      · intro h
        have hx : x ∈ vals.filterMap id := by
          rw [hv]; exact List.mem_cons_self x xs
        obtain ⟨a, ha, hax⟩ := List.mem_filterMap.mp hx
        rw [h a ha] at hax
        cases hax
    · intro q hq
      have hq' : xs.foldl min x = q := by injection hq
      subst hq'
      constructor
      · have hmem : xs.foldl min x ∈ vals.filterMap id := by
          rw [hv]
          rcases foldl_min_mem x xs with h | h
          · rw [h]; exact List.mem_cons_self x xs
          · exact List.mem_cons_of_mem _ h
        obtain ⟨a, ha, hax⟩ := List.mem_filterMap.mp hmem
        have : a = some (xs.foldl min x) := hax
        rwa [this] at ha
      · intro r hr
        have hrmem : r ∈ vals.filterMap id := List.mem_filterMap.mpr ⟨some r, hr, rfl⟩
        rw [hv] at hrmem
        obtain ⟨h1, h2⟩ := foldl_min_le x xs
        rcases List.mem_cons.mp hrmem with rfl | h
        · exact h1
        · exact h2 _ h

theorem aggMax_nullSafe (vals : List (Option ℚ)) : nullSafeMax vals (aggMax vals) := by
  unfold aggMax nullSafeMax
  cases hv : vals.filterMap id with
  | nil =>
    refine ⟨⟨fun _ => ?_, fun _ => rfl⟩, fun q hq => by cases hq⟩
    intro v hvv
    have := List.filterMap_eq_nil_iff.mp hv v hvv
    simpa using this
  | cons x xs =>
    constructor
    · constructor
      · intro h; cases h
      · intro h
        have hx : x ∈ vals.filterMap id := by
          rw [hv]; exact List.mem_cons_self x xs
        obtain ⟨a, ha, hax⟩ := List.mem_filterMap.mp hx
        rw [h a ha] at hax
        cases hax
    · intro q hq
      have hq' : xs.foldl max x = q := by injection hq
      subst hq'
      constructor
      · have hmem : xs.foldl max x ∈ vals.filterMap id := by
          rw [hv]
          rcases foldl_max_mem x xs with h | h
          · rw [h]; exact List.mem_cons_self x xs
          · exact List.mem_cons_of_mem _ h
        obtain ⟨a, ha, hax⟩ := List.mem_filterMap.mp hmem
        have : a = some (xs.foldl max x) := hax
        rwa [this] at ha
      · intro r hr
        have hrmem : r ∈ vals.filterMap id := List.mem_filterMap.mpr ⟨some r, hr, rfl⟩
        rw [hv] at hrmem
        obtain ⟨h1, h2⟩ := foldl_max_le x xs
        rcases List.mem_cons.mp hrmem with rfl | h
        · exact h1
        · exact h2 _ h

theorem aggMin_le_aggMax {vals : List (Option ℚ)} {a b : ℚ}
    (ha : aggMin vals = some a) (hb : aggMax vals = some b) : a ≤ b := by
  obtain ⟨hmem, _⟩ := (aggMin_nullSafe vals).2 a ha
  obtain ⟨_, hub⟩ := (aggMax_nullSafe vals).2 b hb
  exact hub a hmem

theorem dbhParse_forall2 {rows : List DbhRaw} {parsed : List DbhRow}
    (h : dbhParse rows = Except.ok parsed) :
    List.Forall₂ (fun (p : Nat × DbhRaw) (r : DbhRow) =>
      ∃ t, parseTimestamp p.2.timestamp = some t ∧
        r = ⟨p.1, easternMinutes t, toNumeric p.2.size, p.2⟩)
      ((rows.drop 1).enum) parsed := by
  refine (mapM_ok_forall2 h).imp ?_
  intro p r hf
  unfold dbhParseStep at hf
  cases hp : parseTimestamp p.2.timestamp with
  | none =>
    rw [hp] at hf
    cases hf
  | some t =>
    rw [hp] at hf
    have h2 : Except.ok (⟨p.1, easternMinutes t, toNumeric p.2.size, p.2⟩ : DbhRow)
        = Except.ok r := hf
    exact ⟨t, rfl, (Except.ok.inj h2).symm⟩

theorem dbhParse_labels {rows : List DbhRaw} {parsed : List DbhRow}
    (h : dbhParse rows = Except.ok parsed) :
    parsed.map (fun r => r.label) = List.range parsed.length := by
  have h2 := dbhParse_forall2 h
  have hmap : parsed.map (fun r => r.label) = ((rows.drop 1).enum).map Prod.fst :=
    forall2_map_eq h2 (fun p r hr => by obtain ⟨t, _, hre⟩ := hr; rw [hre])
  have hlen : (rows.drop 1).length = parsed.length := by
    have := h2.length_eq
    simpa [List.enum_length] using this
  rw [hmap, List.enum_map_fst, hlen]

theorem dbhParse_mem {rows : List DbhRaw} {parsed : List DbhRow}
    (h : dbhParse rows = Except.ok parsed) {r : DbhRow} (hr : r ∈ parsed) :
    r.size = toNumeric r.raw.size ∧
    ∃ t, parseTimestamp r.raw.timestamp = some t ∧ r.tmin = easternMinutes t := by
  obtain ⟨p, _, t, hpt, hre⟩ := forall2_mem_right (dbhParse_forall2 h) hr
  subst hre
  exact ⟨rfl, t, hpt, rfl⟩

theorem strictlyIncreasing_chain' :
    ∀ {l : List DbhRow}, strictlyIncreasing l = true →
      List.Chain' (fun a b => a.tmin < b.tmin) l
  | [], _ => List.chain'_nil
  | [_], _ => List.chain'_singleton _
  | a :: b :: rest, h => by
    have h2 : (decide (a.tmin < b.tmin) && strictlyIncreasing (b :: rest)) = true := h
    obtain ⟨h3, h4⟩ := Bool.and_eq_true_iff.mp h2
    exact List.chain'_cons.mpr ⟨of_decide_eq_true h3, strictlyIncreasing_chain' h4⟩

theorem dbhSort_eq_of_chain {parsed : List DbhRow}
    (hs : List.Chain' (fun a b => a.tmin < b.tmin) parsed) : dbhSort parsed = parsed := by
  haveI : IsTrans DbhRow (fun a b => a.tmin < b.tmin) := ⟨fun _ _ _ => Nat.lt_trans⟩
  have hp : List.Pairwise (fun a b : DbhRow => a.tmin < b.tmin) parsed :=
    List.chain'_iff_pairwise.mp hs
  exact List.Sorted.insertionSort_eq (hp.imp fun h => Nat.le_of_lt h)

theorem monotoneLabels_of_range' :
    ∀ (l : List DbhRow) (s : Nat), l.map (fun r => r.label) = List.range' s l.length →
      monotoneLabels l = true := by
  intro l
  induction l with
  | nil => intro s _; rfl
  | cons a t ih =>
    intro s h
    simp only [List.map_cons, List.length_cons, List.range'_succ] at h
    have ha : a.label = s := (List.cons.inj h).1
    have ht : t.map (fun r => r.label) = List.range' (s + 1) t.length := (List.cons.inj h).2
    cases t with
    | nil => rfl
    | cons b u =>
      have hb : b.label = s + 1 := by
        have ht2 := ht
        simp only [List.map_cons, List.length_cons, List.range'_succ] at ht2
        exact (List.cons.inj ht2).1
      show (decide (a.label ≤ b.label) && monotoneLabels (b :: u)) = true
      rw [ha, hb, ih (s + 1) ht]
      simp

theorem findIdx_label :
    ∀ (l : List DbhRow) (s j i : Nat), l.map (fun r => r.label) = List.range' s l.length →
      List.findIdx? (fun r => r.label = j) l i =
        if s ≤ j ∧ j < s + l.length then some (i + (j - s)) else none := by
  intro l
  induction l with
  | nil =>
    intro s j i _
    rw [List.length_nil, if_neg (by omega)]
    rfl
  | cons a t ih =>
    intro s j i h
    simp only [List.map_cons, List.length_cons, List.range'_succ] at h
    have ha : a.label = s := (List.cons.inj h).1
    have ht : t.map (fun r => r.label) = List.range' (s + 1) t.length := (List.cons.inj h).2
    rw [List.findIdx?_cons, List.length_cons]
    by_cases hj : a.label = j
    · have hjs : j = s := by rw [← hj, ha]
      rw [if_pos (by simp [hj])]
      rw [if_pos (by omega)]
      have hz : j - s = 0 := by omega
      rw [hz, Nat.add_zero]
    · have hjs : j ≠ s := fun he => hj (by rw [ha, he])
      rw [if_neg (by simp [hj]), ih (s + 1) j (i + 1) ht]
      by_cases hc : s + 1 ≤ j ∧ j < s + 1 + t.length
      · rw [if_pos hc, if_pos (by omega)]
        have harith : i + 1 + (j - (s + 1)) = i + (j - s) := by omega
        rw [harith]
      · rw [if_neg hc, if_neg (by omega)]

theorem labelPos_of_range' (l : List DbhRow) (j : Nat)
    (h : l.map (fun r => r.label) = List.range' 0 l.length) :
    labelPos l j = if j < l.length then some j else none := by
  unfold labelPos
  rw [findIdx_label l 0 j 0 h]
  by_cases hc : j < l.length
  · rw [if_pos ⟨Nat.zero_le j, by omega⟩, if_pos hc]
    congr 1
    omega
  · rw [if_neg (by omega), if_neg hc]

theorem filter_label_lt_all :
    ∀ (l : List DbhRow) (s j : Nat), l.map (fun r => r.label) = List.range' s l.length →
      s + l.length ≤ j → l.filter (fun r => r.label < j) = l := by
  intro l
  induction l with
  | nil => intro s j _ _; rfl
  | cons a t ih =>
    intro s j h hj
    simp only [List.map_cons, List.length_cons, List.range'_succ] at h
    simp only [List.length_cons] at hj
    have ha : a.label = s := (List.cons.inj h).1
    have ht : t.map (fun r => r.label) = List.range' (s + 1) t.length := (List.cons.inj h).2
    rw [List.filter_cons, if_pos (by simp [ha]; omega), ih (s + 1) j ht (by omega)]

theorem addFromPos_length (l : List DbhRow) (p : Nat) (hp : l.length ≤ p) :
    addFromPos l p = l := by
  unfold addFromPos
  have hcongr : ∀ q ∈ l.enum,
      (if p ≤ q.1 then { q.2 with size := q.2.size.map (fun v => ratAdd v (mkRat 8890 1)) } else q.2) = q.2 := by
    intro q hq
    have hlt : q.1 < l.length := by
      have := List.mem_map_of_mem Prod.fst hq
      rw [List.enum_map_fst] at this
      exact List.mem_range.mp this
    rw [if_neg (by omega)]
  rw [List.map_congr_left hcongr, List.enum_map_snd]

theorem addFromPos_succ_eq (l : List DbhRow) (i : Nat) :
    addFromPos l (i + 1) =
      l.enum.map (fun p =>
        if i < p.1 then { p.2 with size := p.2.size.map (fun v => ratAdd v (mkRat 8890 1)) } else p.2) := by
  unfold addFromPos
  apply List.map_congr_left
  intro q _
  by_cases h : i + 1 ≤ q.1
  · rw [if_pos h, if_pos (by omega)]
  · rw [if_neg h, if_neg (by omega)]

theorem filter_label_eq_enumFrom :
    ∀ (l : List DbhRow) (s : Nat) (p : DbhRow → Bool),
      l.map (fun r => r.label) = List.range' s l.length →
      (l.filter p).map (fun r => r.label) =
        ((l.enumFrom s).filter (fun q => p q.2)).map Prod.fst := by
  intro l
  induction l with
  | nil => intro s p _; rfl
  | cons a t ih =>
    intro s p h
    simp only [List.map_cons, List.length_cons, List.range'_succ] at h
    have ha : a.label = s := (List.cons.inj h).1
    have ht : t.map (fun r => r.label) = List.range' (s + 1) t.length := (List.cons.inj h).2
    rw [List.enumFrom_cons, List.filter_cons, List.filter_cons]
    by_cases hp : p a
    · rw [if_pos (by simpa using hp), if_pos (by simpa using hp)]
      simp only [List.map_cons, ha, ih (s + 1) p ht]
    · rw [if_neg (by simpa using hp), if_neg (by simpa using hp)]
      exact ih (s + 1) p ht

theorem rollover_pts_eq (l : List DbhRow)
    (h : l.map (fun r => r.label) = List.range' 0 l.length) :
    (l.filter (fun r => r.size = some 8890)).map (fun r => r.label) =
      (l.enum.filter (fun p => p.2.size = some 8890)).map (fun p => p.1) :=
  filter_label_eq_enumFrom l 0 _ h

theorem dbhRollover_eq_spec {l : List DbhRow}
    (h : l.map (fun r => r.label) = List.range l.length) :
    dbhRollover l = Except.ok (spec_rollover l) := by
  have h' : l.map (fun r => r.label) = List.range' 0 l.length := by
    rw [h, List.range_eq_range']
  unfold dbhRollover spec_rollover
  rw [rollover_pts_eq l h']
  cases hlast : ((l.enum.filter (fun p => p.2.size = some 8890)).map (fun p => p.1)).getLast? with
  | none => rfl
  | some i =>
    have hi : i < l.length := by
      have hmem := List.mem_of_mem_getLast? hlast
      obtain ⟨q, hq, hqi⟩ := List.mem_map.mp hmem
      have hqe : q ∈ l.enum := List.mem_of_mem_filter hq
      have : q.1 ∈ l.enum.map Prod.fst := List.mem_map_of_mem _ hqe
      rw [List.enum_map_fst] at this
      exact hqi ▸ List.mem_range.mp this
    show locAddFrom l (i + 1) = Except.ok _
    unfold locAddFrom
    rw [labelPos_of_range' l (i + 1) h']
    by_cases hc : i + 1 < l.length
    · rw [if_pos hc]
      show Except.ok (addFromPos l (i + 1)) = Except.ok (l.enum.map (fun p =>
        if i < p.1 then { p.2 with size := p.2.size.map (fun v => ratAdd v (mkRat 8890 1)) } else p.2))
      rw [addFromPos_succ_eq]
    · rw [if_neg hc]
      show (if monotoneLabels l = true then
              Except.ok (addFromPos l (l.filter (fun r => r.label < i + 1)).length)
            else Except.error PyError.keyError) =
          Except.ok (l.enum.map (fun p =>
            if i < p.1 then { p.2 with size := p.2.size.map (fun v => ratAdd v (mkRat 8890 1)) } else p.2))
      rw [monotoneLabels_of_range' l 0 h', if_pos rfl]
      rw [filter_label_lt_all l 0 (i + 1) h' (by omega)]
      rw [addFromPos_length l l.length (le_refl _)]
      have hid : l.enum.map (fun p =>
          if i < p.1 then { p.2 with size := p.2.size.map (fun v => ratAdd v (mkRat 8890 1)) } else p.2) = l := by
        have hcongr : ∀ q ∈ l.enum,
            (if i < q.1 then { q.2 with size := q.2.size.map (fun v => ratAdd v (mkRat 8890 1)) } else q.2)
              = q.2 := by
          intro q hq
          have hlt : q.1 < l.length := by
            have := List.mem_map_of_mem Prod.fst hq
            rw [List.enum_map_fst] at this
            exact List.mem_range.mp this
          rw [if_neg (by omega)]
        rw [List.map_congr_left hcongr, List.enum_map_snd]
      rw [hid]

/-- C1 (amended): for every input DBH file whose data rows are already
in strictly increasing converted-timestamp order (so the sort leaves
the positional order, and hence the index labels, unchanged), the
rollover correction behaves as the claim states: 8890 is added to the
`Size` of every row strictly after the last occurrence of `Size` 8890
and rows at or before it are untouched; in particular the time-sorted
`Size` sequence [100, 500, 8890, 50, 300] yields
[100, 500, 8890, 8940, 9190]. (For a file that is not already in
timestamp order the step slices by pre-sort index label and modifies
the wrong rows; see the counterexample.) -/
theorem c1_rollover_presorted (rows : List DbhRaw) (parsed : List DbhRow)
    (hp : dbhParse rows = Except.ok parsed)
    (hs : strictlyIncreasing parsed = true) :
    compute_dbh_df rows = Except.ok (spec_rollover parsed) ∧
    (compute_dbh_df c1GoodFile).map (fun l => l.map (fun r => r.size)) =
      Except.ok [some 100, some 500, some 8890, some 8940, some 9190] := by
  constructor
  · show (dbhParse rows >>= fun parsed => dbhRollover (dbhSort parsed))
        = Except.ok (spec_rollover parsed)
    rw [hp]
    show dbhRollover (dbhSort parsed) = Except.ok (spec_rollover parsed)
    rw [dbhSort_eq_of_chain (strictlyIncreasing_chain' hs)]
    exact dbhRollover_eq_spec (dbhParse_labels hp)
  · decide

/-- C1 witness: the theorem instantiated at the specification's own
scenario file. -/
theorem c1_rollover_presorted_witness :
    compute_dbh_df c1GoodFile = Except.ok (spec_rollover c1GoodParsed) ∧
    (compute_dbh_df c1GoodFile).map (fun l => l.map (fun r => r.size)) =
      Except.ok [some 100, some 500, some 8890, some 8940, some 9190] :=
  c1_rollover_presorted c1GoodFile c1GoodParsed (by decide) (by decide)

/-- C1 counterexample: on `c1BadFile`, whose rows are not in timestamp
order, the code adds 8890 to ALL rows (including the one before the
rollover and the rollover row itself), because `df.loc[last + 1:]`
slices by pre-sort index label: the time-sorted `Size` sequence is
[50, 8890, 300], the claim demands [50, 8890, 9190], but the code
produces [8940, 17780, 9190]. -/
theorem c1_label_slice_counterexample :
    (compute_dbh_df c1BadFile).map (fun l => l.map (fun r => r.size)) =
      Except.ok [some 8940, some 17780, some 9190] ∧
    (dbhParse c1BadFile).map (fun parsed =>
        (spec_rollover (dbhSort parsed)).map (fun r => r.size)) =
      Except.ok [some 50, some 8890, some 9190] ∧
    (compute_dbh_df c1BadFile).map (fun l => l.map (fun r => r.size)) ≠
      (dbhParse c1BadFile).map (fun parsed =>
        (spec_rollover (dbhSort parsed)).map (fun r => r.size)) := by
  decide

/-- C2: if no row's coerced `Size` equals exactly 8890, the rollover
step is the identity on the sorted frame: `compute_dbh_df` returns the
sorted rows with every `Size` exactly as the numeric coercion of that
row's own raw token, i.e. unchanged. -/
theorem c2_no_rollover_noop (rows : List DbhRaw) (parsed : List DbhRow)
    (hp : dbhParse rows = Except.ok parsed)
    (h8 : ∀ r ∈ parsed, r.size ≠ some 8890) :
    compute_dbh_df rows = Except.ok (dbhSort parsed) ∧
    ∀ r ∈ dbhSort parsed, r.size = toNumeric r.raw.size := by
  constructor
  · show (dbhParse rows >>= fun parsed => dbhRollover (dbhSort parsed))
        = Except.ok (dbhSort parsed)
    rw [hp]
    show dbhRollover (dbhSort parsed) = Except.ok (dbhSort parsed)
    unfold dbhRollover
    have hfil : (dbhSort parsed).filter (fun r => r.size = some 8890) = [] := by
      rw [List.filter_eq_nil_iff]
      intro r hr
      have : r ∈ parsed := (List.perm_insertionSort _ parsed).mem_iff.mp hr
      simpa using h8 r this
    rw [hfil]
    rfl
  · intro r hr
    have : r ∈ parsed := (List.perm_insertionSort _ parsed).mem_iff.mp hr
    exact (dbhParse_mem hp this).1

/-- C2 witness: a two-row file with sizes 100 and 200. -/
theorem c2_no_rollover_noop_witness :
    compute_dbh_df [mkDbh "" "", mkDbh "2023.07.04 01:00" "100", mkDbh "2023.07.04 02:00" "200"]
        = Except.ok (dbhSort [⟨0, 1064174220, some 100, mkDbh "2023.07.04 01:00" "100"⟩,
            ⟨1, 1064174280, some 200, mkDbh "2023.07.04 02:00" "200"⟩]) ∧
    ∀ r ∈ dbhSort [⟨0, 1064174220, some 100, mkDbh "2023.07.04 01:00" "100"⟩,
            ⟨1, 1064174280, some 200, mkDbh "2023.07.04 02:00" "200"⟩],
      r.size = toNumeric r.raw.size :=
  c2_no_rollover_noop _ _ (by decide) (by decide)

/-- C3: the timestamp normalizer interprets every parseable
`YYYY.MM.DD HH:MM` string as UTC, shifts it by the America/New_York
offset in force at that instant (applying the DST rules), and returns
the shifted timestamp with no zone attached; in particular
"2023.07.04 16:00" returns the naive local timestamp 2023-07-04 12:00
(EDT), and the winter and DST-transition instants convert accordingly. -/
theorem c3_timezone_conversion :
    (∀ s t, parseTimestamp s = some t →
      convert_to_eastern s = Except.ok (minutesToTS (easternMinutes t)) ∧
      easternMinutes t = tsMinutes t - (if isNyDst (tsMinutes t) then 240 else 300)) ∧
    convert_to_eastern "2023.07.04 16:00" = Except.ok ⟨2023, 7, 4, 12, 0⟩ ∧
    convert_to_eastern "2023.01.04 16:00" = Except.ok ⟨2023, 1, 4, 11, 0⟩ ∧
    convert_to_eastern "2023.03.12 06:59" = Except.ok ⟨2023, 3, 12, 1, 59⟩ ∧
    convert_to_eastern "2023.03.12 07:00" = Except.ok ⟨2023, 3, 12, 3, 0⟩ ∧
    convert_to_eastern "2023.11.05 05:59" = Except.ok ⟨2023, 11, 5, 1, 59⟩ ∧
    convert_to_eastern "2023.11.05 06:00" = Except.ok ⟨2023, 11, 5, 1, 0⟩ := by
  refine ⟨?_, by decide, by decide, by decide, by decide, by decide, by decide⟩
  intro s t hp
  constructor
  · unfold convert_to_eastern
    rw [hp]
  · rfl

/-- C3 witness: the universal clause applied to the specification's
scenario input. -/
theorem c3_timezone_conversion_witness :
    convert_to_eastern "2023.07.04 16:00"
        = Except.ok (minutesToTS (easternMinutes ⟨2023, 7, 4, 16, 0⟩)) ∧
    easternMinutes ⟨2023, 7, 4, 16, 0⟩ = tsMinutes ⟨2023, 7, 4, 16, 0⟩ -
      (if isNyDst (tsMinutes ⟨2023, 7, 4, 16, 0⟩) then 240 else 300) :=
  c3_timezone_conversion.1 "2023.07.04 16:00" ⟨2023, 7, 4, 16, 0⟩ (by decide)

theorem ratAdd_eq_add (a b : ℚ) : ratAdd a b = a + b := by
  have ha : ((a.den : ℚ)) ≠ 0 := Nat.cast_ne_zero.mpr a.den_nz
  have hb : ((b.den : ℚ)) ≠ 0 := Nat.cast_ne_zero.mpr b.den_nz
  have ea : (a.num : ℚ) = a * a.den := (div_eq_iff ha).mp (Rat.num_div_den a)
  have eb : (b.num : ℚ) = b * b.den := (div_eq_iff hb).mp (Rat.num_div_den b)
  rw [ratAdd, Rat.mkRat_eq_div]
  push_cast
  rw [div_eq_iff (mul_ne_zero ha hb), ea, eb]
  ring

theorem ratSub_eq_sub (a b : ℚ) : ratSub a b = a - b := by
  have ha : ((a.den : ℚ)) ≠ 0 := Nat.cast_ne_zero.mpr a.den_nz
  have hb : ((b.den : ℚ)) ≠ 0 := Nat.cast_ne_zero.mpr b.den_nz
  have ea : (a.num : ℚ) = a * a.den := (div_eq_iff ha).mp (Rat.num_div_den a)
  have eb : (b.num : ℚ) = b * b.den := (div_eq_iff hb).mp (Rat.num_div_den b)
  rw [ratSub, Rat.mkRat_eq_div]
  push_cast
  rw [div_eq_iff (mul_ne_zero ha hb), ea, eb]
  ring

theorem ratDivTen_eq (a : ℚ) : ratDivTen a = a / 10 := by
  have ha : ((a.den : ℚ)) ≠ 0 := Nat.cast_ne_zero.mpr a.den_nz
  have ea : (a.num : ℚ) = a * a.den := (div_eq_iff ha).mp (Rat.num_div_den a)
  rw [ratDivTen, Rat.mkRat_eq_div]
  push_cast
  rw [div_eq_div_iff (by positivity) (by norm_num), ea]
  ring

theorem omap2_ratSub (x y : Option ℚ) :
    omap2 ratSub x y = omap2 (fun a b => a - b) x y := by
  cases x <;> cases y <;> simp [omap2, ratSub_eq_sub]

theorem map_ratDivTen (g : Option ℚ) :
    g.map ratDivTen = g.map (fun q => q / 10) := by
  cases g <;> simp [ratDivTen_eq]

/-- C7: in every row of the daily DBH summary, `Growth_mm` is exactly
`Max_Size - Min_Size` and `Growth_cm` is exactly `Growth_mm / 10`
(missing when the aggregates are missing); when `Min_Size` and
`Max_Size` coincide both growth columns are exactly zero; and a present
`Growth_mm` is never negative. -/
theorem c7_growth_equations (combined : List (String × DbhRow)) (drow : DailyDbh)
    (h : drow ∈ dbhDaily combined) :
    drow.growth_mm = omap2 (fun a b => a - b) drow.max_size drow.min_size ∧
    drow.growth_cm = drow.growth_mm.map (fun q => q / 10) ∧
    (∀ q, drow.min_size = some q → drow.max_size = some q →
      drow.growth_mm = some 0 ∧ drow.growth_cm = some 0) ∧
    (∀ g, drow.growth_mm = some g → 0 ≤ g) := by
  obtain ⟨k, hk, rfl⟩ := List.mem_map.mp h
  refine ⟨omap2_ratSub _ _, map_ratDivTen _, ?_, ?_⟩
  · intro q h1 h2
    have h1' : aggMin (dbhGroupSizes combined k.1 k.2) = some q := h1
    have h2' : aggMax (dbhGroupSizes combined k.1 k.2) = some q := h2
    have hmm : omap2 ratSub (aggMax (dbhGroupSizes combined k.1 k.2))
        (aggMin (dbhGroupSizes combined k.1 k.2)) = some (ratSub q q) := by
      rw [h1', h2']; rfl
    constructor
    · show omap2 ratSub _ _ = some 0
      rw [hmm, ratSub_eq_sub, sub_self]
    · show (omap2 ratSub _ _).map ratDivTen = some 0
      rw [hmm, ratSub_eq_sub, sub_self]
      show some (ratDivTen 0) = some 0
      rw [ratDivTen_eq]
      norm_num
  · intro g hg
    have hg' : omap2 ratSub (aggMax (dbhGroupSizes combined k.1 k.2))
        (aggMin (dbhGroupSizes combined k.1 k.2)) = some g := hg
    cases hmx : aggMax (dbhGroupSizes combined k.1 k.2) with
    | none => rw [hmx] at hg'; cases hg'
    | some a =>
      cases hmn : aggMin (dbhGroupSizes combined k.1 k.2) with
      | none => rw [hmx, hmn] at hg'; cases hg'
      | some b =>
        rw [hmx, hmn] at hg'
        have : ratSub a b = g := Option.some.inj hg'
        rw [← this, ratSub_eq_sub, sub_nonneg]
        exact aggMin_le_aggMax hmn hmx

/-- C7 witness: the theorem at the single daily row of a one-sensor
one-day folder with sizes 100 and 8890. -/
theorem c7_growth_equations_witness :
    wDbhRow.growth_mm = omap2 (fun a b => a - b) wDbhRow.max_size wDbhRow.min_size ∧
    wDbhRow.growth_cm = wDbhRow.growth_mm.map (fun q => q / 10) ∧
    (∀ q, wDbhRow.min_size = some q → wDbhRow.max_size = some q →
      wDbhRow.growth_mm = some 0 ∧ wDbhRow.growth_cm = some 0) ∧
    (∀ g, wDbhRow.growth_mm = some g → 0 ≤ g) :=
  c7_growth_equations wCombined wDbhRow (by decide)

theorem climateSorted_ok {df : List ClimateRaw} {rows : List ClimateRow}
    (h : climateSorted df = Except.ok rows) :
    ∃ parsed, List.Forall₂ (fun (r : ClimateRaw) (p : ClimateRow) =>
        ∃ t, parseTimestamp r.timestamp = some t ∧ p = ⟨tsMinutes t, r⟩) df parsed ∧
      rows = List.insertionSort (fun a b => a.tmin ≤ b.tmin) parsed := by
  obtain ⟨parsed, hm, hpure⟩ := except_bind_ok h
  refine ⟨parsed, ?_, ?_⟩
  · refine (mapM_ok_forall2 hm).imp ?_
    intro r p hf
    cases hp : parseTimestamp r.timestamp with
    | none => rw [hp] at hf; cases hf
    | some t =>
      rw [hp] at hf
      have h2 : Except.ok (⟨tsMinutes t, r⟩ : ClimateRow) = Except.ok p := hf
      exact ⟨t, rfl, (Except.ok.inj h2).symm⟩
  · exact (Except.ok.inj hpure).symm

/-- C5: for every climate file that summarizes successfully and every
calendar date occurring in it, the summary has a row for that date
whose `Rows` field is the exact number of source records falling on
the date (records with missing measurement channels included, since
the count looks only at the timestamp); dates are not duplicated. -/
theorem c5_row_count (df : List ClimateRaw) (out : List DailyClimate)
    (h : daily_summary df = Except.ok out) :
    (∀ row ∈ out, row.rows = (df.filter (fun r => rawDate r = some row.date)).length) ∧
    (∀ r ∈ df, ∀ d, rawDate r = some d → ∃ row ∈ out, row.date = d) ∧
    (out.map (fun row => row.date)).Nodup := by
  obtain ⟨rows, hcs, hpure⟩ := except_bind_ok h
  have hout : out = climateDaily rows := (Except.ok.inj hpure).symm
  obtain ⟨parsed, hf2, hrows⟩ := climateSorted_ok hcs
  have hperm : List.Perm rows parsed := by
    rw [hrows]; exact List.perm_insertionSort _ _
  subst hout
  refine ⟨?_, ?_, ?_⟩
  · intro row hrow
    obtain ⟨d, hd, rfl⟩ := List.mem_map.mp hrow
    show (climateGroup rows d).length = (df.filter (fun r => rawDate r = some d)).length
    rw [climateGroup, ← List.countP_eq_length_filter, ← List.countP_eq_length_filter]
    rw [hperm.countP_eq]
    refine forall2_countP_eq hf2 ?_
    intro r p hr
    obtain ⟨t, hpt, rfl⟩ := hr
    apply decide_eq_decide.mpr
    simp [rowDate, rawDate, hpt]
  · intro r hr d hd
    obtain ⟨p, hp, t, hpt, rfl⟩ := forall2_mem_left hf2 hr
    have hpd : rowDate (⟨tsMinutes t, r⟩ : ClimateRow) = d := by
      rw [rawDate, hpt] at hd
      simpa [rowDate] using hd
    have hpmem : (⟨tsMinutes t, r⟩ : ClimateRow) ∈ rows := hperm.mem_iff.mpr hp
    have hdmem : d ∈ datesOf rows := by
      rw [datesOf, List.mem_dedup]
      exact hpd ▸ List.mem_map_of_mem rowDate hpmem
    exact ⟨_, List.mem_map_of_mem _ hdmem, rfl⟩
  · have hmap : (climateDaily rows).map (fun row => row.date) = datesOf rows := by
      rw [climateDaily, List.map_map]
      exact (List.map_congr_left (fun d _ => rfl)).trans (List.map_id' _)
    rw [hmap]
    exact List.nodup_dedup _

/-- C6: in both daily summaries every min/max aggregate is null-safe:
missing channel values are excluded (never coerced to zero), a present
aggregate is one of the group's present values and a bound for all of
them, and a group whose values for a channel are all missing yields a
missing aggregate, not zero and not an error. -/
theorem c6_null_safe_aggregates (rows : List ClimateRow) (row : DailyClimate)
    (hrow : row ∈ climateDaily rows)
    (combined : List (String × DbhRow)) (drow : DailyDbh)
    (hdrow : drow ∈ dbhDaily combined) :
    (nullSafeMin ((climateGroup rows row.date).map (fun r => r.raw.t1)) row.t1_min ∧
     nullSafeMax ((climateGroup rows row.date).map (fun r => r.raw.t1)) row.t1_max ∧
     nullSafeMin ((climateGroup rows row.date).map (fun r => r.raw.t2)) row.t2_min ∧
     nullSafeMax ((climateGroup rows row.date).map (fun r => r.raw.t2)) row.t2_max ∧
     nullSafeMin ((climateGroup rows row.date).map (fun r => r.raw.t3)) row.t3_min ∧
     nullSafeMax ((climateGroup rows row.date).map (fun r => r.raw.t3)) row.t3_max ∧
     nullSafeMin ((climateGroup rows row.date).map (fun r => r.raw.sm)) row.soil_min ∧
     nullSafeMax ((climateGroup rows row.date).map (fun r => r.raw.sm)) row.soil_max ∧
     nullSafeMax ((climateGroup rows row.date).map (fun r => r.raw.sh)) row.shake_max) ∧
    (nullSafeMin (dbhGroupSizes combined drow.sensor_id drow.date) drow.min_size ∧
     nullSafeMax (dbhGroupSizes combined drow.sensor_id drow.date) drow.max_size) := by
  constructor
  · obtain ⟨d, hd, rfl⟩ := List.mem_map.mp hrow
    exact ⟨aggMin_nullSafe _, aggMax_nullSafe _, aggMin_nullSafe _, aggMax_nullSafe _,
      aggMin_nullSafe _, aggMax_nullSafe _, aggMin_nullSafe _, aggMax_nullSafe _,
      aggMax_nullSafe _⟩
  · obtain ⟨k, hk, rfl⟩ := List.mem_map.mp hdrow
    exact ⟨aggMin_nullSafe _, aggMax_nullSafe _⟩

/-- C6 witness: the theorem at a concrete climate day (with two
all-missing channels) and a concrete DBH group. -/
theorem c6_null_safe_aggregates_witness :
    (nullSafeMin ((climateGroup wClimateRows wDaily1.date).map (fun r => r.raw.t1)) wDaily1.t1_min ∧
     nullSafeMax ((climateGroup wClimateRows wDaily1.date).map (fun r => r.raw.t1)) wDaily1.t1_max ∧
     nullSafeMin ((climateGroup wClimateRows wDaily1.date).map (fun r => r.raw.t2)) wDaily1.t2_min ∧
     nullSafeMax ((climateGroup wClimateRows wDaily1.date).map (fun r => r.raw.t2)) wDaily1.t2_max ∧
     nullSafeMin ((climateGroup wClimateRows wDaily1.date).map (fun r => r.raw.t3)) wDaily1.t3_min ∧
     nullSafeMax ((climateGroup wClimateRows wDaily1.date).map (fun r => r.raw.t3)) wDaily1.t3_max ∧
     nullSafeMin ((climateGroup wClimateRows wDaily1.date).map (fun r => r.raw.sm)) wDaily1.soil_min ∧
     nullSafeMax ((climateGroup wClimateRows wDaily1.date).map (fun r => r.raw.sm)) wDaily1.soil_max ∧
     nullSafeMax ((climateGroup wClimateRows wDaily1.date).map (fun r => r.raw.sh)) wDaily1.shake_max) ∧
    (nullSafeMin (dbhGroupSizes wCombined wDbhRow.sensor_id wDbhRow.date) wDbhRow.min_size ∧
     nullSafeMax (dbhGroupSizes wCombined wDbhRow.sensor_id wDbhRow.date) wDbhRow.max_size) :=
  c6_null_safe_aggregates wClimateRows wDaily1 (by decide) wCombined wDbhRow (by decide)

/-- C5 witness: the theorem at a three-record two-day station file. -/
theorem c5_row_count_witness :
    (∀ row ∈ wClimateOut,
      row.rows = (wClimateFile.filter (fun r => rawDate r = some row.date)).length) ∧
    (∀ r ∈ wClimateFile, ∀ d, rawDate r = some d → ∃ row ∈ wClimateOut, row.date = d) ∧
    (wClimateOut.map (fun row => row.date)).Nodup :=
  c5_row_count wClimateFile wClimateOut (by decide)

theorem mem_addFromPos {l : List DbhRow} {p : Nat} {r : DbhRow} (hr : r ∈ addFromPos l p) :
    ∃ r0 ∈ l, r = r0 ∨ (r.raw = r0.raw ∧
      r.size = r0.size.map (fun v => ratAdd v (mkRat 8890 1))) := by
  unfold addFromPos at hr
  obtain ⟨q, hq, hqr⟩ := List.mem_map.mp hr
  have hq2 : q.2 ∈ l := by
    have := List.mem_map_of_mem Prod.snd hq
    rwa [List.enum_map_snd] at this
  by_cases hc : p ≤ q.1
  · rw [if_pos hc] at hqr
    refine ⟨q.2, hq2, Or.inr ⟨?_, ?_⟩⟩
    · rw [← hqr]
    · rw [← hqr]
  · rw [if_neg hc] at hqr
    exact ⟨q.2, hq2, Or.inl hqr.symm⟩

theorem dbhRollover_cases {sorted out : List DbhRow}
    (h : dbhRollover sorted = Except.ok out) :
    ∀ r ∈ out, ∃ r0 ∈ sorted, r = r0 ∨ (r.raw = r0.raw ∧
      r.size = r0.size.map (fun v => ratAdd v (mkRat 8890 1))) := by
  intro r hr
  unfold dbhRollover at h
  cases hlast : ((sorted.filter (fun r => r.size = some 8890)).map
      (fun r => r.label)).getLast? with
  | none =>
    rw [hlast] at h
    have hout : sorted = out := Except.ok.inj h
    subst hout
    exact ⟨r, hr, Or.inl rfl⟩
  | some lab =>
    rw [hlast] at h
    have h2 : (match labelPos sorted (lab + 1) with
        | some p => Except.ok (addFromPos sorted p)
        | none =>
          if monotoneLabels sorted = true then
            Except.ok (addFromPos sorted
              ((sorted.filter (fun r => r.label < lab + 1)).length))
          else Except.error PyError.keyError) = Except.ok out := h
    cases hpos : labelPos sorted (lab + 1) with
    | some p =>
      rw [hpos] at h2
      have hout : addFromPos sorted p = out := Except.ok.inj h2
      subst hout
      exact mem_addFromPos hr
    | none =>
      rw [hpos] at h2
      by_cases hm : monotoneLabels sorted = true
      · rw [if_pos hm] at h2
        have hout : addFromPos sorted
            ((sorted.filter (fun r => r.label < lab + 1)).length) = out := Except.ok.inj h2
        subst hout
        exact mem_addFromPos hr
      · rw [if_neg hm] at h2
        cases h2

/-- C9: a non-numeric `Size` token is coerced to a missing value, the
rollover correction keeps it missing (adding 8890 to a missing value
yields a missing value), and missing values never contribute to the
daily Min/Max aggregates: prepending a missing value changes no
aggregate, and a present minimum always comes from an actually present
value of its group. -/
theorem c9_missing_size_stays_missing (rows : List DbhRaw) (out : List DbhRow)
    (hc : compute_dbh_df rows = Except.ok out) :
    (∀ r ∈ out, toNumeric r.raw.size = none → r.size = none) ∧
    ((none : Option ℚ).map (fun v => ratAdd v (mkRat 8890 1)) = none) ∧
    (∀ vals, aggMin ((none : Option ℚ) :: vals) = aggMin vals ∧
      aggMax ((none : Option ℚ) :: vals) = aggMax vals) ∧
    (∀ combined drow, drow ∈ dbhDaily combined → ∀ q, drow.min_size = some q →
      some q ∈ dbhGroupSizes combined drow.sensor_id drow.date) := by
  obtain ⟨parsed, hp, hroll⟩ := except_bind_ok hc
  refine ⟨?_, rfl, ?_, ?_⟩
  · intro r hr hnone
    obtain ⟨r0, hr0, hcase⟩ := dbhRollover_cases hroll r hr
    have hr0p : r0 ∈ parsed := (List.perm_insertionSort _ parsed).mem_iff.mp hr0
    have hsize : r0.size = toNumeric r0.raw.size := (dbhParse_mem hp hr0p).1
    rcases hcase with rfl | ⟨hraw, hsz⟩
    · rw [hsize, hnone]
    · rw [hsz, hsize, ← hraw, hnone]
      rfl
  · intro vals
    exact ⟨rfl, rfl⟩
  · intro combined drow hd q hq
    obtain ⟨k, hk, rfl⟩ := List.mem_map.mp hd
    exact ((aggMin_nullSafe _).2 q hq).1

/-- C9 witness: the theorem at a file whose second data row has the
token "NA" for `Size`. -/
theorem c9_missing_size_stays_missing_witness :
    (∀ r ∈ wNaOut, toNumeric r.raw.size = none → r.size = none) ∧
    ((none : Option ℚ).map (fun v => ratAdd v (mkRat 8890 1)) = none) ∧
    (∀ vals, aggMin ((none : Option ℚ) :: vals) = aggMin vals ∧
      aggMax ((none : Option ℚ) :: vals) = aggMax vals) ∧
    (∀ combined drow, drow ∈ dbhDaily combined → ∀ q, drow.min_size = some q →
      some q ∈ dbhGroupSizes combined drow.sensor_id drow.date) :=
  c9_missing_size_stays_missing wNaFile wNaOut (by decide)

theorem mem_enumFrom_of_mem {α : Type} :
    ∀ {l : List α} {x : α}, x ∈ l → ∀ n, ∃ i, (i, x) ∈ l.enumFrom n := by
  intro l
  induction l with
  | nil => intro x hx; cases hx
  | cons a t ih =>
    intro x hx n
    rcases List.mem_cons.mp hx with rfl | hxt
    · exact ⟨n, by rw [List.enumFrom_cons]; exact List.mem_cons_self _ _⟩
    · obtain ⟨i, hi⟩ := ih hxt (n + 1)
      exact ⟨i, by rw [List.enumFrom_cons]; exact List.mem_cons_of_mem _ hi⟩

/-- C8: a timestamp string the fixed-format parser rejects makes the
normalizer fail with the parse error (`ValueError`); the error is not
recovered anywhere, so one malformed timestamp in a data row of any
processed DBH file aborts the whole run. -/
theorem c8_parse_failure_aborts :
    (∀ s, parseTimestamp s = none →
      convert_to_eastern s = Except.error PyError.valueError) ∧
    (∀ (climateFiles : List (String × List ClimateRaw))
        (dbhFiles : List (String × List DbhRaw)) (name : String)
        (rows : List DbhRaw) (r : DbhRaw),
      (name, rows) ∈ dbhFiles → strEndsWith (strToLower name) ".csv" = true →
      r ∈ rows.drop 1 → parseTimestamp r.timestamp = none →
      ∃ e, run_all climateFiles dbhFiles = Except.error e) := by
  constructor
  · intro s hs
    unfold convert_to_eastern
    rw [hs]
  · intro cf dfl name rows r hmem hcsv hr hbad
    obtain ⟨i, hi⟩ := mem_enumFrom_of_mem hr 0
    have hstepr : dbhParseStep (i, r) = Except.error PyError.valueError := by
      unfold dbhParseStep
      rw [hbad]
    obtain ⟨e1, he1⟩ := mapM_error_of_mem hi hstepr
    have hparse : dbhParse rows = Except.error e1 := he1
    have hcompute : compute_dbh_df rows = Except.error e1 := by
      show (dbhParse rows >>= fun parsed => dbhRollover (dbhSort parsed)) = _
      exact except_bind_err hparse
    have hfile : (name, rows) ∈ dfl.filter (fun f => strEndsWith (strToLower f.1) ".csv") :=
      List.mem_filter.mpr ⟨hmem, hcsv⟩
    have hstep : dbhFileStep (name, rows) = Except.error e1 := by
      show (compute_dbh_df rows >>= fun df =>
        pure (df.map (fun r => (stationId name, r)))) = _
      exact except_bind_err hcompute
    obtain ⟨e2, he2⟩ := mapM_error_of_mem hfile hstep
    have hproc : process_dbh_folder dfl = Except.error e2 := by
      show ((dfl.filter (fun f => strEndsWith (strToLower f.1) ".csv")).mapM dbhFileStep >>=
          fun dfs => if dfs.isEmpty then pure none
            else pure (some (dbhDaily dfs.flatten))) = _
      exact except_bind_err he2
    cases hsum : summarize_folder cf with
    | error e3 =>
      refine ⟨e3, ?_⟩
      show (summarize_folder cf >>= fun s =>
        process_dbh_folder dfl >>= fun d => pure (s, d)) = _
      exact except_bind_err hsum
    | ok s =>
      refine ⟨e2, ?_⟩
      show (summarize_folder cf >>= fun s =>
        process_dbh_folder dfl >>= fun d => pure (s, d)) = _
      rw [hsum]
      show (process_dbh_folder dfl >>= fun d => pure (s, d)) = _
      exact except_bind_err hproc

/-- C8 witness: a malformed timestamp string, and a one-file DBH folder
whose only data row carries it. -/
theorem c8_parse_failure_aborts_witness :
    convert_to_eastern "not-a-timestamp" = Except.error PyError.valueError ∧
    ∃ e, run_all [] [("a.csv", [mkDbh "" "", mkDbh "garbage" "100"])] = Except.error e :=
  ⟨c8_parse_failure_aborts.1 "not-a-timestamp" (by decide),
   c8_parse_failure_aborts.2 [] [("a.csv", [mkDbh "" "", mkDbh "garbage" "100"])]
     "a.csv" [mkDbh "" "", mkDbh "garbage" "100"] (mkDbh "garbage" "100")
     (by decide) (by decide) (by decide) (by decide)⟩

theorem lookup_writeFile_self {α : Type} :
    ∀ (fs : List (String × α)) (k : String) (c : α),
      lookupFile (writeFile fs k c) k = some c := by
  intro fs k c
  induction fs with
  | nil => simp [writeFile, lookupFile]
  | cons a t ih =>
    unfold writeFile
    by_cases hak : a.1 = k
    · rw [if_pos hak]
      simp [lookupFile]
    · rw [if_neg hak]
      unfold lookupFile at ih ⊢
      rw [List.find?_cons_of_neg _ (by simpa using hak)]
      exact ih

theorem lookup_writeFile_other {α : Type} :
    ∀ (fs : List (String × α)) (k : String) (c : α) (k' : String), k' ≠ k →
      lookupFile (writeFile fs k c) k' = lookupFile fs k' := by
  intro fs k c k' hne
  induction fs with
  | nil =>
    unfold writeFile lookupFile
    rw [List.find?_cons_of_neg _ (by simpa using Ne.symm hne)]
  | cons a t ih =>
    unfold writeFile
    by_cases hak : a.1 = k
    · rw [if_pos hak]
      unfold lookupFile
      rw [List.find?_cons_of_neg _ (by simpa using Ne.symm hne),
        List.find?_cons_of_neg _ (by simp [hak]; exact Ne.symm hne)]
    · rw [if_neg hak]
      unfold lookupFile at ih ⊢
      by_cases hak' : a.1 = k'
      · rw [List.find?_cons_of_pos _ (by simpa using hak'),
          List.find?_cons_of_pos _ (by simpa using hak')]
      · rw [List.find?_cons_of_neg _ (by simpa using hak'),
          List.find?_cons_of_neg _ (by simpa using hak')]
        exact ih

theorem mem_keys_writeFile {α : Type} :
    ∀ (fs : List (String × α)) (k : String) (c : α) (k' : String),
      k' ∈ (writeFile fs k c).map (fun p => p.1) ↔
        k' = k ∨ k' ∈ fs.map (fun p => p.1) := by
  intro fs k c k'
  induction fs with
  | nil => simp [writeFile]
  | cons a t ih =>
    unfold writeFile
    by_cases hak : a.1 = k
    · rw [if_pos hak]
      simp only [List.map_cons, List.mem_cons, hak]
      tauto
    · rw [if_neg hak]
      simp only [List.map_cons, List.mem_cons, ih]
      tauto

theorem keys_nodup_writeFile {α : Type} :
    ∀ (fs : List (String × α)) (k : String) (c : α),
      (fs.map (fun p => p.1)).Nodup → ((writeFile fs k c).map (fun p => p.1)).Nodup := by
  intro fs k c
  induction fs with
  | nil => intro _; simp [writeFile]
  | cons a t ih =>
    intro hnd
    rw [List.map_cons, List.nodup_cons] at hnd
    unfold writeFile
    by_cases hak : a.1 = k
    · rw [if_pos hak]
      rw [List.map_cons, List.nodup_cons]
      exact ⟨hak ▸ hnd.1, hnd.2⟩
    · rw [if_neg hak]
      rw [List.map_cons, List.nodup_cons]
      refine ⟨?_, ih hnd.2⟩
      intro hmem
      rcases (mem_keys_writeFile t k c a.1).mp hmem with rfl | hmem'
      · exact hak rfl
      · exact hnd.1 hmem'

theorem string_append_right_inj {s t u : String} (h : s ++ u = t ++ u) : s = t := by
  have hd : s.data ++ u.data = t.data ++ u.data := by
    rw [← String.data_append, ← String.data_append, h]
  have h2 := List.append_cancel_right hd
  cases s
  cases t
  exact congrArg String.mk h2

theorem summarize_fold :
    ∀ (files : List (String × List ClimateRaw)) (acc fs : List (String × List DailyClimate)),
      List.foldlM summarizeStep acc files = Except.ok fs →
      (acc.map (fun p => p.1)).Nodup →
      ((fs.map (fun p => p.1)).Nodup ∧
       (∀ key, lookupFile fs key = lookupFile acc key ∨
         ∃ f ∈ files, strEndsWith f.1 ".csv" = true ∧ key = stationId f.1 ++ "_daily.csv") ∧
       (∀ key, (lookupFile fs key).isSome = true ↔ ((lookupFile acc key).isSome = true ∨
         ∃ f ∈ files, strEndsWith f.1 ".csv" = true ∧ key = stationId f.1 ++ "_daily.csv")) ∧
       (∀ s name df, lastStation files s = some (name, df) →
         ∃ out, daily_summary df = Except.ok out ∧
           lookupFile fs (s ++ "_daily.csv") = some out)) := by
  intro files
  induction files with
  | nil =>
    intro acc fs h hnd
    rw [List.foldlM_nil] at h
    have hacc : acc = fs := Except.ok.inj h
    subst hacc
    refine ⟨hnd, fun key => Or.inl rfl, fun key => ?_, fun s name df hl => ?_⟩
    · constructor
      · exact fun hx => Or.inl hx
      · rintro (hx | ⟨f, hf, _, _⟩)
        · exact hx
        · cases hf
    · unfold lastStation at hl
      simp at hl
  | cons a files ih =>
    intro acc fs h hnd
    rw [List.foldlM_cons] at h
    obtain ⟨acc', hstep, hrest⟩ := except_bind_ok h
    by_cases hcsv : strEndsWith a.1 ".csv" = true
    · unfold summarizeStep at hstep
      rw [if_pos hcsv] at hstep
      obtain ⟨outa, hda, hpure⟩ := except_bind_ok hstep
      have hacc' : acc' = writeFile acc (stationId a.1 ++ "_daily.csv") outa :=
        (Except.ok.inj hpure).symm
      subst hacc'
      obtain ⟨H1, H2, H3, H4⟩ := ih _ _ hrest (keys_nodup_writeFile _ _ _ hnd)
      refine ⟨H1, ?_, ?_, ?_⟩
      · intro key
        by_cases heq : key = stationId a.1 ++ "_daily.csv"
        · exact Or.inr ⟨a, List.mem_cons_self _ _, hcsv, heq⟩
        · rcases H2 key with hk | ⟨f, hf, hfcsv, hkey⟩
          · rw [hk, lookup_writeFile_other _ _ _ _ heq]
            exact Or.inl rfl
          · exact Or.inr ⟨f, List.mem_cons_of_mem _ hf, hfcsv, hkey⟩
      · intro key
        rw [H3 key]
        constructor
        · rintro (hsome | ⟨f, hf, hfc, hk⟩)
          · by_cases heq : key = stationId a.1 ++ "_daily.csv"
            · exact Or.inr ⟨a, List.mem_cons_self _ _, hcsv, heq⟩
            · rw [lookup_writeFile_other _ _ _ _ heq] at hsome
              exact Or.inl hsome
          · exact Or.inr ⟨f, List.mem_cons_of_mem _ hf, hfc, hk⟩
        · rintro (hsome | ⟨f, hf, hfc, hk⟩)
          · by_cases heq : key = stationId a.1 ++ "_daily.csv"
            · subst heq
              refine Or.inl ?_
              rw [lookup_writeFile_self]
              rfl
            · refine Or.inl ?_
              rw [lookup_writeFile_other _ _ _ _ heq]
              exact hsome
          · rcases List.mem_cons.mp hf with rfl | hf'
            · subst hk
              refine Or.inl ?_
              rw [lookup_writeFile_self]
              rfl
            · exact Or.inr ⟨f, hf', hfc, hk⟩
      · intro s name df hl
        unfold lastStation at hl
        rw [List.filter_cons] at hl
        by_cases hpa : stationId a.1 = s
        · rw [if_pos (by simp [hcsv, hpa])] at hl
          cases hfil : files.filter
              (fun f => decide (strEndsWith f.1 ".csv" = true ∧ stationId f.1 = s)) with
          | nil =>
            rw [hfil, List.getLast?_singleton] at hl
            have ha : a = (name, df) := Option.some.inj hl
            have hdf : df = a.2 := by rw [ha]
            refine ⟨outa, by rw [hdf]; exact hda, ?_⟩
            rcases H2 (s ++ "_daily.csv") with hk | ⟨f, hf, hfcsv, hkey⟩
            · rw [hk, ← hpa, lookup_writeFile_self]
            · have hsf : stationId f.1 = s := string_append_right_inj hkey.symm
              have hfmem : f ∈ files.filter
                  (fun f => decide (strEndsWith f.1 ".csv" = true ∧ stationId f.1 = s)) :=
                List.mem_filter.mpr ⟨hf, by simp [hfcsv, hsf]⟩
              rw [hfil] at hfmem
              cases hfmem
          | cons b l =>
            rw [hfil, List.getLast?_cons_cons] at hl
            refine H4 s name df ?_
            unfold lastStation
            rw [hfil]
            exact hl
        · rw [if_neg (by simp [hpa])] at hl
          exact H4 s name df hl
    · unfold summarizeStep at hstep
      rw [if_neg hcsv] at hstep
      have hacc' : acc' = acc := (Except.ok.inj hstep).symm
      subst hacc'
      obtain ⟨H1, H2, H3, H4⟩ := ih _ _ hrest hnd
      refine ⟨H1, ?_, ?_, ?_⟩
      · intro key
        rcases H2 key with hk | ⟨f, hf, hfcsv, hkey⟩
        · exact Or.inl hk
        · exact Or.inr ⟨f, List.mem_cons_of_mem _ hf, hfcsv, hkey⟩
      · intro key
        rw [H3 key]
        constructor
        · rintro (hs | ⟨f, hf, hfc, hk⟩)
          · exact Or.inl hs
          · exact Or.inr ⟨f, List.mem_cons_of_mem _ hf, hfc, hk⟩
        · rintro (hs | ⟨f, hf, hfc, hk⟩)
          · exact Or.inl hs
          · rcases List.mem_cons.mp hf with rfl | hf'
            · exact absurd hfc hcsv
            · exact Or.inr ⟨f, hf', hfc, hk⟩
      · intro s name df hl
        unfold lastStation at hl
        rw [List.filter_cons, if_neg (by simp [hcsv])] at hl
        exact H4 s name df hl

/-- C10: climate files whose names share the leading token before the
first underscore are written to the same path
`{station_id}_daily.csv`, so the file processed later silently
overwrites the earlier one's summary: in the final destination folder,
the file of each station id holds exactly the summary of that
station's last-processed CSV, a path exists exactly for the station
ids of the processed CSVs, and no path is duplicated. -/
theorem c10_station_collision_overwrite (files : List (String × List ClimateRaw))
    (fs : List (String × List DailyClimate))
    (h : summarize_folder files = Except.ok fs) :
    (∀ s name df, lastStation files s = some (name, df) →
      ∃ out, daily_summary df = Except.ok out ∧
        lookupFile fs (s ++ "_daily.csv") = some out) ∧
    (∀ key, (lookupFile fs key).isSome = true ↔
      ∃ f ∈ files, strEndsWith f.1 ".csv" = true ∧
        key = stationId f.1 ++ "_daily.csv") ∧
    (fs.map (fun p => p.1)).Nodup := by
  obtain ⟨H1, H2, H3, H4⟩ := summarize_fold files [] fs h (by simp)
  refine ⟨H4, ?_, H1⟩
  intro key
  rw [H3 key]
  constructor
  · rintro (hs | hex)
    · exact absurd hs (by simp [lookupFile])
    · exact hex
  · intro hex
    exact Or.inr hex

/-- C10 witness: a folder with two "AB" CSV files and a non-CSV file;
the destination folder holds one file, the summary of the second "AB"
file. -/
theorem c10_station_collision_overwrite_witness :
    (∀ s name df, lastStation wFolder s = some (name, df) →
      ∃ out, daily_summary df = Except.ok out ∧
        lookupFile wFolderOut (s ++ "_daily.csv") = some out) ∧
    (∀ key, (lookupFile wFolderOut key).isSome = true ↔
      ∃ f ∈ wFolder, strEndsWith f.1 ".csv" = true ∧
        key = stationId f.1 ++ "_daily.csv") ∧
    (wFolderOut.map (fun p => p.1)).Nodup :=
  c10_station_collision_overwrite wFolder wFolderOut (by decide)
